import Mathlib

/-!
Verification of the cross-validation / batch-training control logic of the
connectome-CNN age-regression scripts (`ccnn_regr_baseline.py` and
`ccnn_regr_public.py`).

The numeric tensors are modelled over `ℚ` (exact arithmetic).  A 4-D data
tensor is modelled as a list of instances, each instance being the flattened
list of its matrix entries; normalization only ever looks at the multiset of
scalar entries, never at the 2-D structure, so this loses nothing.  Random
choices made by `numpy.random` (shuffles, permutations) are passed in as
explicit arguments, constrained to be permutations where a claim needs it.
-/

namespace CCNN

/-- Executable absolute value on `ℚ` (`np.abs`). -/
def qabs (x : ℚ) : ℚ := if x < 0 then -x else x

/-- Executable binary max on `ℚ` (`np.max` reduction step). -/
def qmax (a b : ℚ) : ℚ := if a ≤ b then b else a

/-- All scalar entries of a tensor (instances flattened in order). -/
def tflat (t : List (List ℚ)) : List ℚ := t.flatten

/-- `np.mean` over all entries of a tensor (division by zero yields 0 in `ℚ`,
standing in for the empty-mean edge case). -/
def tmean (t : List (List ℚ)) : ℚ := (tflat t).sum / (tflat t).length

/-- `np.max(np.abs(·))` over all entries of a tensor, 0 for an entry-less
tensor. -/
def tmaxabs (t : List (List ℚ)) : ℚ := ((tflat t).map qabs).foldr qmax 0

/-- `normalize_tensor` (ccnn_regr_baseline.py lines 62-65, identically
ccnn_regr_public.py lines 68-71): first subtract the global mean in place,
then divide in place by the maximum absolute value of the *already
mean-subtracted* tensor. -/
def normalize_tensor (t : List (List ℚ)) : List (List ℚ) :=
  let m := tmean t
  let c := t.map (List.map (fun x => x - m))
  let M := tmaxabs c
  c.map (List.map (fun x => x / M))

/-- Boolean-mask selection of instances, `tensor[mask]` in numpy: keeps the
rows whose mask entry is `true`, in order. -/
def maskSelect {α : Type} : List Bool → List α → List α
  | true :: ms, x :: xs => x :: maskSelect ms xs
  | false :: ms, _ :: xs => maskSelect ms xs
  | _, _ => []

/-- The normalization formula exactly as the spec states it:
`(tensor - mean(tensor)) / max(abs(tensor - mean(tensor)))`. -/
def normalizeSpecFormula (t : List (List ℚ)) : List (List ℚ) :=
  let m := tmean t
  let M := ((tflat t).map (fun x => qabs (x - m))).foldr qmax 0
  t.map (List.map (fun x => (x - m) / M))

/-- `np.mean` of a 1-D vector. -/
def npMean (l : List ℚ) : ℚ := l.sum / l.length

/-- `r_squared` (ccnn_regr_baseline.py lines 119-125, identically
ccnn_regr_public.py lines 93-99): `1 - mean((y-ŷ)²) / mean((y-mean(y))²)`,
with the elementwise difference of the two equal-length vectors modelled by
`zip`. -/
def r_squared (labels predictions : List ℚ) : ℚ :=
  let ss_res := npMean ((labels.zip predictions).map (fun p => (p.1 - p.2) ^ 2))
  let ss_tot := npMean (labels.map (fun y => (y - npMean labels) ^ 2))
  1 - ss_res / ss_tot

/-- `randomize_tensor` (ccnn_regr_baseline.py lines 76-80, ccnn_regr_public.py
lines 82-86): applies the same index permutation (drawn by
`np.random.permutation(labels.shape[0])`, here an explicit argument) to the
dataset rows and to the labels. -/
def randomize_tensor (perm : List ℕ) (dataset : List (List ℚ)) (labels : List ℚ) :
    List (List ℚ) × List ℚ :=
  (perm.map (fun i => dataset.getD i []), perm.map (fun i => labels.getD i 0))

/-- `np.ceil(len(subjects)/num_folds).astype(np.int)` for a positive fold
count: ceiling division. -/
def foldRows (numSubj num_folds : ℕ) : ℕ := (numSubj + num_folds - 1) / num_folds

/-- Row-major `s.reshape((n, k))`: `n` consecutive rows of `k` entries. -/
def reshapeRows (k : ℕ) : ℕ → List ℚ → List (List ℚ)
  | 0, _ => []
  | n + 1, s => s.take k :: reshapeRows k n (s.drop k)

/-- `create_train_and_test_folds` (ccnn_regr_baseline.py lines 50-58).  The
outcome of the in-place `np.random.shuffle(subjects)` is the explicit
`shuffled` argument (constrained to be a permutation where a claim needs it):
compute `n = ceil(len/num_folds)`, pad with zeros to length `n*num_folds`
when the length is not an exact multiple, and reshape row-major into
`n × num_folds`. -/
def create_train_and_test_folds (num_folds : ℕ) (shuffled : List ℚ) : List (List ℚ) :=
  reshapeRows num_folds (foldRows shuffled.length num_folds)
    (if shuffled.length ≠ foldRows shuffled.length num_folds * num_folds
      then shuffled ++ List.replicate
        (foldRows shuffled.length num_folds * num_folds - shuffled.length) 0
      else shuffled)

/-- Column `f` of the fold table, `IDs[:, f]` in numpy. -/
def tableColumn (t : List (List ℚ)) (f : ℕ) : List ℚ := t.map (fun row => row.getD f 0)

/-- State-passing rendering of the call `create_train_and_test_folds(k, subjects)`:
`np.random.shuffle` permutes the caller's `subjects` buffer in place, so the
call returns the table together with the caller-visible post-state of
`subjects`, which is the shuffled array. -/
def create_train_and_test_folds_st (num_folds : ℕ) (shuffled : List ℚ) :
    List (List ℚ) × List ℚ :=
  (create_train_and_test_folds num_folds shuffled, shuffled)

/-- The training-loop offset
`offset = (step * batch_size) % (train_labels.shape[0] - batch_size)`
(ccnn_regr_baseline.py line 228, ccnn_regr_public.py line 179).  Python's `%`
on ints is floor-mod (`Int.fmod`); a zero modulus raises `ZeroDivisionError`,
modelled as `none`. -/
def loopOffset (batch_size num_train step : ℕ) : Option ℤ :=
  if (num_train : ℤ) - batch_size = 0 then none
  else some (Int.fmod (step * batch_size) ((num_train : ℤ) - batch_size))

/-- The epoch re-shuffle guard `if (offset == 0)` (ccnn_regr_baseline.py line
232, ccnn_regr_public.py line 183). -/
def reshuffleTriggered (batch_size num_train step : ℕ) : Bool :=
  loopOffset batch_size num_train step == some 0

/-- The contiguous batch slice `train_data[offset:offset+batch_size]`
(ccnn_regr_baseline.py lines 236-237, ccnn_regr_public.py lines 187-188). -/
def batchSlice {α : Type} (l : List α) (offset batch_size : ℕ) : List α :=
  (l.drop offset).take batch_size

/-- `np.in1d(subjects, IDs[:, fold])` (ccnn_regr_baseline.py line 103): the
per-instance boolean mask marking instances whose subject id occurs in the
fold's test column. -/
def in1d (subjects col : List ℚ) : List Bool :=
  subjects.map (fun s => decide (s ∈ col))

/-- `create_train_and_test_data` (ccnn_regr_baseline.py lines 102-112): select
test instances by mask, train instances by the negated mask, normalize each
split independently, and shuffle the train split once (the `np.random`
permutation is the explicit `perm` argument).  Returns
`(train_data, train_labels, test_data, test_labels)`. -/
def create_train_and_test_data (fold : ℕ) (IDs : List (List ℚ))
    (subjects labels : List ℚ) (data_tensor : List (List ℚ)) (perm : List ℕ) :
    List (List ℚ) × List ℚ × List (List ℚ) × List ℚ :=
  let testIDs := in1d subjects (tableColumn IDs fold)
  let test_data := normalize_tensor (maskSelect testIDs data_tensor)
  let test_labels := maskSelect testIDs labels
  let train_data0 := normalize_tensor (maskSelect (testIDs.map not) data_tensor)
  let train_labels0 := maskSelect (testIDs.map not) labels
  ((randomize_tensor perm train_data0 train_labels0).1,
   (randomize_tensor perm train_data0 train_labels0).2,
   test_data, test_labels)

/-- `data_tensor[np.isnan(data_tensor)] = 0` (ccnn_regr_baseline.py line 139):
raw entries are `Option ℚ` with `none` standing for NaN; NaNs become 0. -/
def nanToZero (raw : List (List (Option ℚ))) : List (List ℚ) :=
  raw.map (List.map (fun x => x.getD 0))

/-- The full test-tensor pipeline of the baseline script for one fold: global
NaN replacement and global normalization (lines 139-140), then the fold
assembler's per-split selection and normalization (lines 102-105). -/
def foldTestData (fold : ℕ) (IDs : List (List ℚ)) (subjects labels : List ℚ)
    (raw : List (List (Option ℚ))) (perm : List ℕ) : List (List ℚ) :=
  (create_train_and_test_data fold IDs subjects labels
    (normalize_tensor (nanToZero raw)) perm).2.2.1

/-- A parameter node of the transfer script's graph: a `tf.constant`
(immutable, never touched by the optimizer) or a trainable `tf.Variable` /
`tf.get_variable` carrying its name and initial value.  The tensor payload is
an arbitrary type `α`. -/
inductive TFNode (α : Type) where
  | const : α → TFNode α
  | var : String → α → TFNode α

/-- The pretrained bundle loaded from `weights_public.pickle`
(ccnn_regr_public.py lines 50-59). -/
structure LoadedWeights (α : Type) where
  layer1_weights : α
  layer1_biases : α
  layer2_weights : α
  layer2_biases : α
  layer3_weights : α
  layer3_biases : α
  layer4_weights : α
  layer4_biases : α

/-- The eight parameter nodes of the transfer graph. -/
structure TransferGraph (α : Type) where
  layer1_weights : TFNode α
  layer1_biases : TFNode α
  layer2_weights : TFNode α
  layer2_biases : TFNode α
  layer3_weights : TFNode α
  layer3_biases : TFNode α
  layer4_weights : TFNode α
  layer4_biases : TFNode α

/-- Graph construction (ccnn_regr_public.py lines 131-140): layers 1-2 are
`tf.constant` of the loaded pretrained values; layers 3-4 are trainable
variables whose Xavier / constant initial values are the explicit `i*`
arguments. -/
def buildTransferGraph {α : Type} (loaded : LoadedWeights α)
    (i3w i3b i4w i4b : α) : TransferGraph α :=
  { layer1_weights := TFNode.const loaded.layer1_weights
    layer1_biases := TFNode.const loaded.layer1_biases
    layer2_weights := TFNode.const loaded.layer2_weights
    layer2_biases := TFNode.const loaded.layer2_biases
    layer3_weights := TFNode.var "layer3_weights" i3w
    layer3_biases := TFNode.var "layer3_biases" i3b
    layer4_weights := TFNode.var "layer4_weights" i4w
    layer4_biases := TFNode.var "layer4_biases" i4b }

/-- `node.eval()` under a session variable assignment: constants ignore the
session state, variables read their current value. -/
def evalNode {α : Type} (s : String → α) : TFNode α → α
  | TFNode.const v => v
  | TFNode.var n _ => s n

/-- Whether a node belongs to the trainable parameter set (tf collects
variables, not constants). -/
def isTrainable {α : Type} : TFNode α → Bool
  | TFNode.const _ => false
  | TFNode.var _ _ => true

/-- Name of a variable node, `none` for constants. -/
def varName {α : Type} : TFNode α → Option String
  | TFNode.const _ => none
  | TFNode.var n _ => some n

/-- The graph's trainable parameter set, as the names of its variable nodes
in declaration order. -/
def trainableNames {α : Type} (g : TransferGraph α) : List String :=
  ([g.layer1_weights, g.layer1_biases, g.layer2_weights, g.layer2_biases,
    g.layer3_weights, g.layer3_biases, g.layer4_weights, g.layer4_biases].filterMap varName)

/-- The optimizer session (lines 171-198): each training step replaces the
variable assignment by an arbitrary new one (Adam is an external capability);
constants are not part of the updated state. -/
def applyUpdates {α : Type} (s0 : String → α)
    (upds : List ((String → α) → (String → α))) : String → α :=
  upds.foldl (fun s u => u s) s0

/-- The bundle pickled into `weights_public_regr.pickle` at the end of
training (ccnn_regr_public.py lines 200-225): the script evaluates and saves
all eight tensors, layers 1-4. -/
def savedBundle {α : Type} (g : TransferGraph α) (s : String → α) :
    List (String × α) :=
  [("layer1_weights", evalNode s g.layer1_weights),
   ("layer1_biases", evalNode s g.layer1_biases),
   ("layer2_weights", evalNode s g.layer2_weights),
   ("layer2_biases", evalNode s g.layer2_biases),
   ("layer3_weights", evalNode s g.layer3_weights),
   ("layer3_biases", evalNode s g.layer3_biases),
   ("layer4_weights", evalNode s g.layer4_weights),
   ("layer4_biases", evalNode s g.layer4_biases)]

lemma qabs_eq_abs (x : ℚ) : qabs x = |x| := by
  unfold qabs
  by_cases h : x < 0
  · simp [h, abs_of_neg h]
  · simp [h, abs_of_nonneg (le_of_not_lt h)]

lemma qmax_eq_max (a b : ℚ) : qmax a b = max a b := by
  unfold qmax
  by_cases h : a ≤ b
  · simp [h, max_eq_right h]
  · simp [h, max_eq_left (le_of_not_le h)]

lemma tflat_map (f : ℚ → ℚ) (t : List (List ℚ)) :
    tflat (t.map (List.map f)) = (tflat t).map f := by
  simp [tflat, List.map_flatten]

/-- C6: `normalize_tensor` computes the spec's closed formula: the mean is
subtracted first and the divisor is the max absolute value of the
mean-subtracted tensor (stated under the claim's nondegeneracy hypothesis). -/
theorem normalize_tensor_eq_spec_formula (t : List (List ℚ))
    (_h : tmaxabs (t.map (List.map (fun x => x - tmean t))) ≠ 0) :
    normalize_tensor t = normalizeSpecFormula t := by
  simp only [normalize_tensor, normalizeSpecFormula, tmaxabs, tflat_map]
  simp [List.map_map, Function.comp_def]

/-- Witness for C6 at a concrete tensor. -/
theorem normalize_tensor_eq_spec_formula_witness :
    tmaxabs ([[1, 3]].map (List.map (fun x => x - tmean [[1, 3]]))) ≠ 0 ∧
    normalize_tensor [[1, 3]] = normalizeSpecFormula [[1, 3]] := by
  have h : tmaxabs ([[1, 3]].map (List.map (fun x => x - tmean [[1, 3]]))) ≠ 0 := by
    norm_num [tmaxabs, tflat, tmean, qabs, qmax]
  exact ⟨h, normalize_tensor_eq_spec_formula [[1, 3]] h⟩

lemma map_zip_self (f : ℚ × ℚ → ℚ) (l : List ℚ) :
    (l.zip l).map f = l.map (fun y => f (y, y)) := by
  rw [show l.zip l = (l.map id).zip (l.map id) by simp, List.zip_map']
  simp

lemma map_zip_replicate (f : ℚ × ℚ → ℚ) (c : ℚ) :
    ∀ l : List ℚ, (l.zip (List.replicate l.length c)).map f =
      l.map (fun y => f (y, c))
  | [] => rfl
  | x :: xs => by
      simp only [List.length_cons, List.replicate_succ, List.zip_cons_cons,
        List.map_cons, map_zip_replicate f c xs]

/-- C7: properties of `r_squared`: it is `1 - mean((y-ŷ)²)/mean((y-mean y)²)`,
perfect predictions give exactly 1, constant-mean predictions give exactly 0
(for labels of non-zero variance), and the value is unclamped: it can be
negative. -/
theorem r_squared_properties (labels : List ℚ)
    (h : npMean (labels.map (fun y => (y - npMean labels) ^ 2)) ≠ 0) :
    r_squared labels labels = 1 ∧
    r_squared labels (List.replicate labels.length (npMean labels)) = 0 ∧
    (∀ predictions : List ℚ, r_squared labels predictions =
      1 - npMean ((labels.zip predictions).map (fun p => (p.1 - p.2) ^ 2)) /
        npMean (labels.map (fun y => (y - npMean labels) ^ 2))) ∧
    (∃ ys ps : List ℚ, r_squared ys ps < 0) := by
  refine ⟨?_, ?_, fun _ => rfl, ⟨[0, 2], [4, 4], ?_⟩⟩
  · unfold r_squared
    rw [map_zip_self]
    simp [npMean]
  · unfold r_squared
    rw [map_zip_replicate]
    show 1 - npMean (labels.map (fun y => (y - npMean labels) ^ 2)) /
        npMean (labels.map (fun y => (y - npMean labels) ^ 2)) = 0
    rw [div_self h]
    ring
  · norm_num [r_squared, npMean]

/-- Witness for C7 at the concrete label vector `[0, 2]`. -/
theorem r_squared_properties_witness :
    npMean (([0, 2] : List ℚ).map (fun y => (y - npMean [0, 2]) ^ 2)) ≠ 0 ∧
    r_squared [0, 2] [0, 2] = 1 := by
  have h : npMean (([0, 2] : List ℚ).map (fun y => (y - npMean [0, 2]) ^ 2)) ≠ 0 := by
    norm_num [npMean]
  exact ⟨h, (r_squared_properties [0, 2] h).1⟩

lemma map_getD_range_zip :
    ∀ (a : List (List ℚ)) (b : List ℚ), a.length = b.length →
      (List.range b.length).map (fun i => (a.getD i [], b.getD i 0)) = a.zip b
  | [], [], _ => rfl
  | [], _ :: _, hl => by simp at hl
  | _ :: _, [], hl => by simp at hl
  | x :: a, y :: b, hl => by
      have hl' : a.length = b.length := by simpa using hl
      simp only [List.length_cons, List.range_succ_eq_map, List.map_cons,
        List.getD_cons_zero, List.map_map]
      rw [show ((fun i => ((x :: a).getD i [], (y :: b).getD i 0)) ∘ Nat.succ)
            = (fun i => (a.getD i [], b.getD i 0)) by
          funext i; simp [Function.comp]]
      rw [map_getD_range_zip a b hl']
      rfl

/-- C8: `randomize_tensor` applies one and the same permutation to the data
rows and the labels, so the multiset of (data row, label) pairs is preserved:
the zipped output is a permutation of the zipped input. -/
theorem randomize_tensor_preserves_pairs (perm : List ℕ)
    (dataset : List (List ℚ)) (labels : List ℚ)
    (hperm : List.Perm perm (List.range labels.length))
    (hlen : dataset.length = labels.length) :
    List.Perm
      ((randomize_tensor perm dataset labels).1.zip
        (randomize_tensor perm dataset labels).2)
      (dataset.zip labels) := by
  unfold randomize_tensor
  rw [List.zip_map']
  rw [← map_getD_range_zip dataset labels hlen]
  exact hperm.map _

/-- Witness for C8 at a concrete permutation and dataset. -/
theorem randomize_tensor_preserves_pairs_witness :
    List.Perm [2, 0, 1] (List.range ([10, 20, 30] : List ℚ).length) ∧
    ([[1], [2], [3]] : List (List ℚ)).length = ([10, 20, 30] : List ℚ).length ∧
    List.Perm
      ((randomize_tensor [2, 0, 1] [[1], [2], [3]] [10, 20, 30]).1.zip
        (randomize_tensor [2, 0, 1] [[1], [2], [3]] [10, 20, 30]).2)
      (([[1], [2], [3]] : List (List ℚ)).zip [10, 20, 30]) := by
  refine ⟨by decide, by decide, ?_⟩
  exact randomize_tensor_preserves_pairs [2, 0, 1] [[1], [2], [3]] [10, 20, 30]
    (by decide) (by decide)

lemma len_le_rows_mul (len k : ℕ) (hk : 0 < k) : len ≤ foldRows len k * k := by
  have hdm := Nat.div_add_mod (len + k - 1) k
  have hmod : (len + k - 1) % k < k := Nat.mod_lt _ hk
  rw [foldRows, Nat.mul_comm]
  omega

lemma padded_subjects_eq (num_folds : ℕ) (shuffled : List ℚ) :
    (if shuffled.length ≠ foldRows shuffled.length num_folds * num_folds
      then shuffled ++ List.replicate
        (foldRows shuffled.length num_folds * num_folds - shuffled.length) 0
      else shuffled)
    = shuffled ++ List.replicate
        (foldRows shuffled.length num_folds * num_folds - shuffled.length) 0 := by
  by_cases h : shuffled.length ≠ foldRows shuffled.length num_folds * num_folds
  · rw [if_pos h]
  · rw [if_neg h]
    push_neg at h
    rw [← h, Nat.sub_self, List.replicate_zero, List.append_nil]

lemma padded_subjects_length (num_folds : ℕ) (shuffled : List ℚ) (hk : 0 < num_folds) :
    (shuffled ++ List.replicate
        (foldRows shuffled.length num_folds * num_folds - shuffled.length) 0).length
    = foldRows shuffled.length num_folds * num_folds := by
  have := len_le_rows_mul shuffled.length num_folds hk
  simp only [List.length_append, List.length_replicate]
  omega

lemma flatten_reshapeRows (k : ℕ) :
    ∀ (n : ℕ) (s : List ℚ), s.length = n * k → (reshapeRows k n s).flatten = s
  | 0, s, hs => by
      have : s = [] := List.eq_nil_of_length_eq_zero (by simpa using hs)
      subst this
      rfl
  | n + 1, s, hs => by
      have hdrop : (s.drop k).length = n * k := by
        rw [List.length_drop]
        have hmul : (n + 1) * k = n * k + k := by ring
        omega
      show (s.take k :: reshapeRows k n (s.drop k)).flatten = s
      rw [List.flatten_cons, flatten_reshapeRows k n (s.drop k) hdrop,
        List.take_append_drop]

lemma sum_map_add_nat {α : Type} (f g : α → ℕ) :
    ∀ l : List α, (l.map (fun a => f a + g a)).sum = (l.map f).sum + (l.map g).sum
  | [] => rfl
  | a :: l => by
      simp only [List.map_cons, List.sum_cons, sum_map_add_nat f g l]
      omega

lemma sum_map_ite_count (x : ℚ) :
    ∀ l : List ℚ,
      ((List.range l.length).map (fun f => if l.getD f 0 == x then 1 else 0)).sum
        = l.count x
  | [] => rfl
  | a :: l => by
      simp only [List.length_cons, List.range_succ_eq_map, List.map_cons,
        List.getD_cons_zero, List.map_map, List.sum_cons]
      rw [show ((fun f => if (a :: l).getD f 0 == x then 1 else 0) ∘ Nat.succ)
            = (fun f => if l.getD f 0 == x then 1 else 0) by
          funext f; simp [Function.comp]]
      rw [sum_map_ite_count x l, List.count_cons]
      omega

lemma count_columns_reshape (x : ℚ) (k : ℕ) :
    ∀ (n : ℕ) (s : List ℚ), s.length = n * k →
      ((List.range k).map
        (fun f => (tableColumn (reshapeRows k n s) f).count x)).sum = s.count x
  | 0, s, hs => by
      have : s = [] := List.eq_nil_of_length_eq_zero (by simpa using hs)
      subst this
      simp [reshapeRows, tableColumn]
  | n + 1, s, hs => by
      have hmul : (n + 1) * k = n * k + k := by ring
      have htake : (s.take k).length = k := by
        rw [List.length_take]
        omega
      have hdrop : (s.drop k).length = n * k := by
        rw [List.length_drop]
        omega
      have hcol : ∀ f, tableColumn (reshapeRows k (n + 1) s) f
          = (s.take k).getD f 0 :: tableColumn (reshapeRows k n (s.drop k)) f := by
        intro f
        rfl
      simp only [hcol, List.count_cons]
      rw [sum_map_add_nat
        (fun f => (tableColumn (reshapeRows k n (s.drop k)) f).count x)
        (fun f => if (s.take k).getD f 0 == x then 1 else 0) (List.range k)]
      rw [count_columns_reshape x k n (s.drop k) hdrop]
      rw [show List.range k = List.range (s.take k).length by rw [htake]]
      rw [sum_map_ite_count x (s.take k)]
      conv_rhs => rw [← List.take_append_drop k s]
      rw [List.count_append]
      omega

lemma filter_length_eq_one_of_sum_map {α : Type} (g : α → ℕ) :
    ∀ l : List α, (l.map g).sum = 1 →
      (l.filter (fun a => g a ≠ 0)).length = 1
  | [], h => by simp at h
  | a :: l, h => by
      simp only [List.map_cons, List.sum_cons] at h
      by_cases ha : g a = 0
      · rw [ha, Nat.zero_add] at h
        have := filter_length_eq_one_of_sum_map g l h
        simp only [List.filter_cons, ha]
        simpa using this
      · have hrest : (l.map g).sum = 0 := by omega
        have hall : ∀ b ∈ l, g b = 0 := by
          intro b hb
          have hle : g b ≤ (l.map g).sum := List.le_sum_of_mem (List.mem_map_of_mem g hb)
          omega
        rw [show (a :: l).filter (fun b => g b ≠ 0) = a :: l.filter (fun b => g b ≠ 0) from by
          rw [List.filter_cons, if_pos (by simpa using ha)]]
        rw [show l.filter (fun b => g b ≠ 0) = [] from
          List.filter_eq_nil_iff.mpr (fun b hb => by simpa using hall b hb)]
        rfl

lemma reshapeRows_row_length (k : ℕ) :
    ∀ (n : ℕ) (s : List ℚ), ∀ row ∈ reshapeRows k n s, row.length ≤ k
  | 0, _, _, hrow => by simp [reshapeRows] at hrow
  | n + 1, s, row, hrow => by
      rcases List.mem_cons.mp hrow with h | h
      · subst h
        simp [List.length_take]
      · exact reshapeRows_row_length k n (s.drop k) row h

/-- C4: for a positive fold count and distinct non-zero subject ids, the Fold
Assignment Table partitions the unique subject set: every subject id appears
in exactly one column, the non-sentinel entries of all columns taken together
are exactly the subject ids, and every entry is either a sentinel 0 or a
subject id. -/
theorem create_folds_partition (num_folds : ℕ) (subjects shuffled : List ℚ)
    (hk : 0 < num_folds) (hnd : subjects.Nodup)
    (h0 : ∀ x ∈ subjects, x ≠ 0)
    (hperm : List.Perm shuffled subjects) :
    (∀ x ∈ subjects,
      ((List.range num_folds).filter
        (fun f => x ∈ tableColumn (create_train_and_test_folds num_folds shuffled) f)).length
        = 1) ∧
    List.Perm
      (((List.range num_folds).map
          (tableColumn (create_train_and_test_folds num_folds shuffled))).flatten.filter
        (fun v => v ≠ 0))
      subjects ∧
    (∀ f : ℕ, ∀ v ∈ tableColumn (create_train_and_test_folds num_folds shuffled) f,
      v = 0 ∨ v ∈ subjects) := by
  have htbl : create_train_and_test_folds num_folds shuffled
      = reshapeRows num_folds (foldRows shuffled.length num_folds)
          (shuffled ++ List.replicate
            (foldRows shuffled.length num_folds * num_folds - shuffled.length) 0) := by
    unfold create_train_and_test_folds
    rw [padded_subjects_eq]
  simp only [htbl]
  set k := num_folds with hkdef
  set n := foldRows shuffled.length num_folds with hndef
  set s := shuffled ++ List.replicate (n * k - shuffled.length) 0 with hsdef
  have hslen : s.length = n * k := padded_subjects_length num_folds shuffled hk
  have hcount : ∀ x : ℚ,
      ((List.range k).map
        (fun f => (tableColumn (reshapeRows k n s) f).count x)).sum = s.count x :=
    fun x => count_columns_reshape x k n s hslen
  have hcount_subj : ∀ x : ℚ, x ≠ 0 → s.count x = subjects.count x := by
    intro x hx
    rw [hsdef, List.count_append, List.count_replicate]
    have hne : ((0 : ℚ) == x) = false := by
      simp only [beq_eq_false_iff_ne, ne_eq]
      exact fun h => hx h.symm
    rw [hne, hperm.count_eq]
    simp
  refine ⟨?_, ?_, ?_⟩
  · intro x hx
    have hx0 : x ≠ 0 := h0 x hx
    have h1 : s.count x = 1 := by
      rw [hcount_subj x hx0]
      exact List.count_eq_one_of_mem hnd hx
    have hsum : ((List.range k).map
        (fun f => (tableColumn (reshapeRows k n s) f).count x)).sum = 1 := by
      rw [hcount x, h1]
    have hfc : (List.range k).filter
          (fun f => x ∈ tableColumn (reshapeRows k n s) f)
        = (List.range k).filter
          (fun f => (tableColumn (reshapeRows k n s) f).count x ≠ 0) := by
      apply List.filter_congr
      intro f _
      simp only [decide_eq_decide]
      constructor
      · intro hm
        exact Nat.pos_iff_ne_zero.mp (List.count_pos_iff.mpr hm)
      · intro hn
        exact List.count_pos_iff.mp (Nat.pos_of_ne_zero hn)
    rw [hfc]
    exact filter_length_eq_one_of_sum_map _ (List.range k) hsum
  · rw [List.perm_iff_count]
    intro v
    by_cases hv : v = 0
    · subst hv
      rw [List.count_eq_zero.mpr, List.count_eq_zero.mpr]
      · exact fun hm => h0 0 hm rfl
      · intro hmem
        have := (List.mem_filter.mp hmem).2
        simp at this
    · rw [List.count_filter (by simpa using hv)]
      rw [List.count_flatten, List.map_map]
      have : ((fun l => l.count v) ∘ tableColumn (reshapeRows k n s))
          = fun f => (tableColumn (reshapeRows k n s) f).count v := rfl
      rw [this, hcount v, hcount_subj v hv]
  · intro f v hv
    by_cases hf : f < k
    · by_cases hv0 : v = 0
      · exact Or.inl hv0
      · refine Or.inr ?_
        have hpos : 0 < (tableColumn (reshapeRows k n s) f).count v :=
          List.count_pos_iff.mpr hv
        have hmem_map : (tableColumn (reshapeRows k n s) f).count v ∈
            (List.range k).map
              (fun f => (tableColumn (reshapeRows k n s) f).count v) :=
          List.mem_map_of_mem _ (List.mem_range.mpr hf)
        have hle := List.le_sum_of_mem hmem_map
        rw [hcount v] at hle
        have hvs : v ∈ s := List.count_pos_iff.mp (by omega)
        rcases List.mem_append.mp hvs with h | h
        · exact hperm.mem_iff.mp h
        · exact absurd (List.eq_of_mem_replicate h) hv0
    · left
      rcases List.mem_map.mp hv with ⟨row, hrow, hrowv⟩
      have hlen : row.length ≤ k := reshapeRows_row_length k n s row hrow
      have hkf : k ≤ f := Nat.le_of_not_lt hf
      have hlf : row.length ≤ f := le_trans hlen hkf
      rw [← hrowv]
      exact List.getD_eq_default _ _ hlf

/-- Witness for C4 at a concrete fold count, subject list and shuffle. -/
theorem create_folds_partition_witness :
    (0 < 2 ∧ ([1, 2, 3] : List ℚ).Nodup ∧ (∀ x ∈ ([1, 2, 3] : List ℚ), x ≠ 0) ∧
      List.Perm ([3, 1, 2] : List ℚ) [1, 2, 3]) ∧
    (∀ x ∈ ([1, 2, 3] : List ℚ),
      ((List.range 2).filter
        (fun f => x ∈ tableColumn (create_train_and_test_folds 2 [3, 1, 2]) f)).length
        = 1) := by
  refine ⟨⟨by decide, by decide, by decide, by decide⟩, ?_⟩
  exact (create_folds_partition 2 [1, 2, 3] [3, 1, 2]
    (by decide) (by decide) (by decide) (by decide)).1

/-- C9: the call mutates its `subjects` argument in place: afterwards the
caller's buffer holds the shuffled permutation (in general different from the
original order), while the returned table is, in the padded case, assembled
into a fresh zero-initialized buffer whose contents are the shuffled ids
followed by sentinel zeros. -/
theorem create_folds_mutates_subjects (num_folds : ℕ) (subjects shuffled : List ℚ)
    (hk : 0 < num_folds) (hperm : List.Perm shuffled subjects) :
    (create_train_and_test_folds_st num_folds shuffled).2 = shuffled ∧
    List.Perm (create_train_and_test_folds_st num_folds shuffled).2 subjects ∧
    (shuffled.length ≠ foldRows shuffled.length num_folds * num_folds →
      (create_train_and_test_folds num_folds shuffled).flatten
        = shuffled ++ List.replicate
            (foldRows shuffled.length num_folds * num_folds - shuffled.length) 0) ∧
    (∃ subj2 shuf2 : List ℚ, List.Perm shuf2 subj2 ∧
      (create_train_and_test_folds_st num_folds shuf2).2 ≠ subj2) := by
  refine ⟨rfl, hperm, ?_, ⟨[2, 1], [1, 2], by decide, by
    show ([1, 2] : List ℚ) ≠ [2, 1]
    decide⟩⟩
  intro _
  unfold create_train_and_test_folds
  rw [padded_subjects_eq]
  exact flatten_reshapeRows _ _ _ (padded_subjects_length _ _ hk)

/-- Witness for C9 at a concrete input. -/
theorem create_folds_mutates_subjects_witness :
    (0 < 2 ∧ List.Perm ([3, 1, 2] : List ℚ) [1, 2, 3]) ∧
    (create_train_and_test_folds_st 2 [3, 1, 2]).2 = [3, 1, 2] := by
  refine ⟨⟨by decide, by decide⟩, ?_⟩
  exact (create_folds_mutates_subjects 2 [1, 2, 3] [3, 1, 2] (by decide) (by decide)).1

lemma loopOffset_eq_natMod (batch_size num_train step : ℕ)
    (h : batch_size < num_train) :
    loopOffset batch_size num_train step
      = some (((step * batch_size) % (num_train - batch_size) : ℕ) : ℤ) := by
  unfold loopOffset
  have hne : (num_train : ℤ) - batch_size ≠ 0 := by
    have : (batch_size : ℤ) < num_train := by exact_mod_cast h
    omega
  rw [if_neg hne]
  have hcast : (num_train : ℤ) - batch_size = ((num_train - batch_size : ℕ) : ℤ) := by
    have : batch_size ≤ num_train := Nat.le_of_lt h
    omega
  rw [hcast, Int.fmod_eq_emod _ (by positivity)]
  norm_cast

/-- C10: the offset computation is well-defined only when
`num_train > batch_size`: at equality the modulus is zero and the step fails
(`none`); under the precondition every offset lies in
`[0, num_train - batch_size)` and every sliced batch has exactly `batch_size`
instances. -/
theorem loop_offset_safe (batch_size num_train step : ℕ) (l : List ℚ)
    (hl : l.length = num_train) :
    (num_train = batch_size → loopOffset batch_size num_train step = none) ∧
    (batch_size < num_train →
      ∃ o : ℕ, loopOffset batch_size num_train step = some (o : ℤ) ∧
        o = (step * batch_size) % (num_train - batch_size) ∧
        o < num_train - batch_size ∧
        (batchSlice l o batch_size).length = batch_size) := by
  constructor
  · intro heq
    unfold loopOffset
    rw [if_pos (by rw [heq]; ring)]
  · intro h
    refine ⟨(step * batch_size) % (num_train - batch_size),
      loopOffset_eq_natMod batch_size num_train step h, rfl, ?_, ?_⟩
    · exact Nat.mod_lt _ (by omega)
    · have hmod : (step * batch_size) % (num_train - batch_size)
          < num_train - batch_size := Nat.mod_lt _ (by omega)
      unfold batchSlice
      rw [List.length_take, List.length_drop, hl]
      omega

/-- Witness for C10 at `batch_size = 4`, `num_train = 36`, `step = 5`. -/
theorem loop_offset_safe_witness :
    (List.replicate 36 (0 : ℚ)).length = 36 ∧ 4 < 36 ∧
    ∃ o : ℕ, loopOffset 4 36 5 = some (o : ℤ) ∧
      o = (5 * 4) % (36 - 4) ∧ o < 36 - 4 ∧
      (batchSlice (List.replicate 36 (0 : ℚ)) o 4).length = 4 := by
  refine ⟨by decide, by decide, ?_⟩
  exact (loop_offset_safe 4 36 5 (List.replicate 36 0) (by decide)).2 (by decide)

/-- C1 counterexample: with `batch_size = 4` and `num_train_instances = 36`
the modulus is 32, so the nine offsets of steps 0..8 are 0,4,...,28,0: they
are not nine distinct batch starts, and the ninth disjoint batch (offset 32)
is never visited. -/
theorem offset_scenario_counterexample :
    ((List.range 9).map (fun step => loopOffset 4 36 step)
      = [some 0, some 4, some 8, some 12, some 16, some 20, some 24, some 28, some 0]) ∧
    ¬ ((List.range 9).map (fun step => loopOffset 4 36 step)).Nodup ∧
    (some (32 : ℤ)) ∉ (List.range 9).map (fun step => loopOffset 4 36 step) := by
  refine ⟨by decide, by decide, by decide⟩

/-- C1 amended: every step's offset is `(step*batch_size) mod
(num_train-batch_size)`, the re-shuffle fires exactly when the offset is 0
(step 0 included), sliced batches are contiguous with `batch_size` elements;
in the scenario `batch_size = 4`, `num_train = 36`, the first 8 steps visit 8
pairwise-distinct disjoint batch offsets (0,4,...,28), the offset returns to 0
at step 8 triggering a re-shuffle, and the batch at offset 32 is never
visited at any step. -/
theorem training_loop_epoch_behavior :
    (∀ batch_size num_train step : ℕ, batch_size < num_train →
      loopOffset batch_size num_train step
        = some (((step * batch_size) % (num_train - batch_size) : ℕ) : ℤ)) ∧
    (∀ batch_size num_train step : ℕ,
      (reshuffleTriggered batch_size num_train step = true ↔
        loopOffset batch_size num_train step = some 0)) ∧
    (∀ (l : List ℚ) (o bs : ℕ), o + bs ≤ l.length →
      batchSlice l o bs = (l.drop o).take bs ∧ (batchSlice l o bs).length = bs) ∧
    ((List.range 8).map (fun step => loopOffset 4 36 step)
      = [some 0, some 4, some 8, some 12, some 16, some 20, some 24, some 28]) ∧
    ((List.range 8).map (fun step => loopOffset 4 36 step)).Nodup ∧
    loopOffset 4 36 8 = some 0 ∧
    reshuffleTriggered 4 36 8 = true ∧
    reshuffleTriggered 4 36 0 = true ∧
    (∀ step : ℕ, loopOffset 4 36 step ≠ some (32 : ℤ)) := by
  refine ⟨?_, ?_, ?_, by decide, by decide, by decide, by decide, by decide, ?_⟩
  · exact loopOffset_eq_natMod
  · intro batch_size num_train step
    unfold reshuffleTriggered
    exact beq_iff_eq
  · intro l o bs h
    refine ⟨rfl, ?_⟩
    unfold batchSlice
    rw [List.length_take, List.length_drop]
    omega
  · intro step
    rw [loopOffset_eq_natMod 4 36 step (by omega)]
    intro hcontra
    have h32 : ((step * 4) % 32 : ℕ) = (32 : ℕ) := by
      have := Option.some.inj hcontra
      exact_mod_cast this
    have : (step * 4) % 32 < 32 := Nat.mod_lt _ (by omega)
    omega

/-- Witness for C1's amended theorem, discharging its hypotheses at concrete
inputs. -/
theorem training_loop_epoch_behavior_witness :
    ((4 : ℕ) < 36 ∧ loopOffset 4 36 5 = some (((5 * 4) % (36 - 4) : ℕ) : ℤ)) ∧
    (0 + 4 ≤ (List.replicate 36 (0 : ℚ)).length ∧
      (batchSlice (List.replicate 36 (0 : ℚ)) 0 4).length = 4) :=
  ⟨⟨by decide, training_loop_epoch_behavior.1 4 36 5 (by decide)⟩,
   ⟨by decide, (training_loop_epoch_behavior.2.2.1 (List.replicate 36 0) 0 4 (by decide)).2⟩⟩

lemma maskSelect_map_pred {α : Type} (p : α → Bool) :
    ∀ l : List α, maskSelect (l.map p) l = l.filter p
  | [] => rfl
  | x :: xs => by
      by_cases hx : p x
      · simp only [List.map_cons, hx, List.filter_cons]
        rw [if_pos (by simp [hx])]
        show x :: maskSelect (xs.map p) xs = x :: xs.filter p
        rw [maskSelect_map_pred p xs]
      · simp only [List.map_cons, List.filter_cons]
        rw [if_neg (by simp [hx])]
        have hpx : p x = false := by simp [hx]
        rw [hpx]
        show maskSelect (xs.map p) xs = xs.filter p
        exact maskSelect_map_pred p xs

lemma maskSelect_length_add {α : Type} :
    ∀ (mask : List Bool) (l : List α), mask.length = l.length →
      (maskSelect mask l).length + (maskSelect (mask.map not) l).length = l.length
  | [], [], _ => rfl
  | [], _ :: _, h => by simp at h
  | _ :: _, [], h => by simp at h
  | b :: mask, x :: l, h => by
      have h' : mask.length = l.length := by simpa using h
      cases b
      · show (maskSelect mask l).length + (x :: maskSelect (mask.map not) l).length
          = (x :: l).length
        have := maskSelect_length_add mask l h'
        simp only [List.length_cons]
        omega
      · show (x :: maskSelect mask l).length + (maskSelect (mask.map not) l).length
          = (x :: l).length
        have := maskSelect_length_add mask l h'
        simp only [List.length_cons]
        omega

/-- C5: for any fold whose table's real subject ids cover the instances'
subject ids, the assembler's train and test splits are subject-disjoint, and
the number of train instances plus the number of test instances equals the
number of instances belonging to a real (non-sentinel) subject. -/
theorem fold_split_disjoint_complete (fold : ℕ) (IDs : List (List ℚ))
    (subjects labels : List ℚ) (data : List (List ℚ)) (perm : List ℕ)
    (hlen : labels.length = subjects.length)
    (hperm : List.Perm perm (List.range
      (maskSelect ((in1d subjects (tableColumn IDs fold)).map not) labels).length))
    (hcov : ∀ s ∈ subjects, s ∈ IDs.flatten.filter (fun v => v ≠ 0)) :
    (∀ s : ℚ, s ∈ maskSelect (in1d subjects (tableColumn IDs fold)) subjects →
      s ∉ maskSelect ((in1d subjects (tableColumn IDs fold)).map not) subjects) ∧
    (create_train_and_test_data fold IDs subjects labels data perm).2.1.length
      + (create_train_and_test_data fold IDs subjects labels data perm).2.2.2.length
      = (subjects.filter (fun s => s ≠ 0)).length := by
  constructor
  · intro s hstest hstrain
    rw [show in1d subjects (tableColumn IDs fold)
          = subjects.map (fun v => decide (v ∈ tableColumn IDs fold)) from rfl,
      maskSelect_map_pred] at hstest
    rw [show (in1d subjects (tableColumn IDs fold)).map not
          = subjects.map (fun v => not (decide (v ∈ tableColumn IDs fold))) from by
        rw [in1d, List.map_map]; rfl,
      maskSelect_map_pred] at hstrain
    have h1 : s ∈ tableColumn IDs fold := by
      have := (List.mem_filter.mp hstest).2
      simpa using this
    have h2 : s ∉ tableColumn IDs fold := by
      have := (List.mem_filter.mp hstrain).2
      simpa using this
    exact h2 h1
  · have hfilter : subjects.filter (fun s => s ≠ 0) = subjects := by
      rw [List.filter_eq_self]
      intro s hs
      have := hcov s hs
      have hne : s ≠ 0 := by
        have := (List.mem_filter.mp this).2
        simpa using this
      simpa using hne
    rw [hfilter]
    have hmask : (in1d subjects (tableColumn IDs fold)).length = labels.length := by
      rw [in1d, List.length_map, hlen]
    have hsum := maskSelect_length_add (in1d subjects (tableColumn IDs fold)) labels hmask
    have htrainlen :
        (create_train_and_test_data fold IDs subjects labels data perm).2.1.length
          = (maskSelect ((in1d subjects (tableColumn IDs fold)).map not) labels).length := by
      show (randomize_tensor perm
        (normalize_tensor (maskSelect ((in1d subjects (tableColumn IDs fold)).map not) data))
        (maskSelect ((in1d subjects (tableColumn IDs fold)).map not) labels)).2.length = _
      rw [randomize_tensor]
      rw [List.length_map]
      rw [hperm.length_eq, List.length_range]
    have htestlen :
        (create_train_and_test_data fold IDs subjects labels data perm).2.2.2.length
          = (maskSelect (in1d subjects (tableColumn IDs fold)) labels).length := rfl
    rw [htrainlen, htestlen]
    omega

/-- Witness for C5 at a concrete fold, table and instance list. -/
theorem fold_split_disjoint_complete_witness :
    (([10, 20, 30] : List ℚ).length = ([1, 1, 2] : List ℚ).length ∧
      List.Perm [0] (List.range
        (maskSelect ((in1d [1, 1, 2] (tableColumn [[1, 2]] 0)).map not)
          ([10, 20, 30] : List ℚ)).length) ∧
      (∀ s ∈ ([1, 1, 2] : List ℚ),
        s ∈ ([[1, 2]] : List (List ℚ)).flatten.filter (fun v => v ≠ 0))) ∧
    (create_train_and_test_data 0 [[1, 2]] [1, 1, 2] [10, 20, 30]
        [[5], [6], [7]] [0]).2.1.length
      + (create_train_and_test_data 0 [[1, 2]] [1, 1, 2] [10, 20, 30]
        [[5], [6], [7]] [0]).2.2.2.length
      = (([1, 1, 2] : List ℚ).filter (fun s => s ≠ 0)).length := by
  refine ⟨⟨by decide, by decide, by decide⟩, ?_⟩
  exact (fold_split_disjoint_complete 0 [[1, 2]] [1, 1, 2] [10, 20, 30]
    [[5], [6], [7]] [0] (by decide) (by decide) (by decide)).2

lemma maskSelect_map {α β : Type} (f : α → β) :
    ∀ (mask : List Bool) (t : List α),
      maskSelect mask (t.map f) = (maskSelect mask t).map f
  | [], [] => rfl
  | [], _ :: _ => rfl
  | b :: _, [] => by cases b <;> rfl
  | true :: mask, x :: t => by
      show f x :: maskSelect mask (t.map f) = f x :: (maskSelect mask t).map f
      rw [maskSelect_map f mask t]
  | false :: mask, _ :: t => maskSelect_map f mask t

lemma tensor_map_congr (f g : ℚ → ℚ) (u : List (List ℚ))
    (h : ∀ x ∈ tflat u, f x = g x) :
    u.map (List.map f) = u.map (List.map g) := by
  apply List.map_congr_left
  intro l hl
  apply List.map_congr_left
  intro x hx
  apply h
  rw [tflat, List.mem_flatten]
  exact ⟨l, hl, hx⟩

lemma normalize_tensor_entrywise (t : List (List ℚ)) :
    normalize_tensor t = t.map (List.map (fun x =>
      (x - tmean t) / tmaxabs (t.map (List.map (fun y => y - tmean t))))) := by
  unfold normalize_tensor
  simp [List.map_map, Function.comp_def]

lemma sum_map_affine (a b : ℚ) :
    ∀ l : List ℚ, (l.map (fun x => a * x + b)).sum = a * l.sum + l.length * b
  | [] => by simp
  | x :: l => by
      simp only [List.map_cons, List.sum_cons, List.length_cons,
        sum_map_affine a b l]
      push_cast
      ring

lemma foldr_qmax_nonneg : ∀ l : List ℚ, 0 ≤ (l.map qabs).foldr qmax 0
  | [] => le_refl 0
  | x :: l => by
      simp only [List.map_cons, List.foldr_cons, qmax_eq_max]
      exact le_trans (foldr_qmax_nonneg l) (le_max_right _ _)

lemma le_foldr_qmax : ∀ (l : List ℚ) (y : ℚ), y ∈ l → y ≤ l.foldr qmax 0
  | [], y, hy => by simp at hy
  | x :: l, y, hy => by
      simp only [List.foldr_cons, qmax_eq_max]
      rcases List.mem_cons.mp hy with h | h
      · subst h
        exact le_max_left _ _
      · exact le_trans (le_foldr_qmax l y h) (le_max_right _ _)

lemma qabs_mul_nonneg (a x : ℚ) (ha : 0 ≤ a) : qabs (a * x) = a * qabs x := by
  rw [qabs_eq_abs, qabs_eq_abs, abs_mul, abs_of_nonneg ha]

lemma foldr_qmax_scale (a : ℚ) (ha : 0 ≤ a) :
    ∀ l : List ℚ, ((l.map (fun x => a * x)).map qabs).foldr qmax 0
      = a * (l.map qabs).foldr qmax 0
  | [] => by simp
  | x :: l => by
      simp only [List.map_cons, List.foldr_cons]
      rw [foldr_qmax_scale a ha l, qabs_mul_nonneg a x ha, qmax_eq_max, qmax_eq_max,
        mul_max_of_nonneg _ _ ha]

lemma tensor_map_map (f g : ℚ → ℚ) (u : List (List ℚ)) :
    (u.map (List.map f)).map (List.map g) = u.map (List.map (fun x => g (f x))) := by
  rw [List.map_map]
  apply List.map_congr_left
  intro l _
  show List.map g (List.map f l) = List.map (fun x => g (f x)) l
  rw [List.map_map]
  rfl

lemma length_tflat_ne_zero {u : List (List ℚ)} (hne : tflat u ≠ []) :
    ((tflat u).length : ℚ) ≠ 0 := by
  have h0 : (tflat u).length ≠ 0 := fun h => hne (List.length_eq_zero.mp h)
  exact_mod_cast Nat.cast_ne_zero.mpr h0

lemma tmean_affine (a b : ℚ) (u : List (List ℚ)) (hne : tflat u ≠ []) :
    tmean (u.map (List.map (fun x => a * x + b))) = a * tmean u + b := by
  unfold tmean
  rw [tflat_map, sum_map_affine, List.length_map]
  have hn : ((tflat u).length : ℚ) ≠ 0 := length_tflat_ne_zero hne
  field_simp
  ring

lemma tmaxabs_centered_affine (a b : ℚ) (ha : 0 ≤ a) (u : List (List ℚ)) :
    tmaxabs ((u.map (List.map (fun x => a * x + b))).map
      (List.map (fun y => y - (a * tmean u + b))))
    = a * tmaxabs (u.map (List.map (fun y => y - tmean u))) := by
  rw [tensor_map_map]
  rw [show u.map (List.map (fun x => (a * x + b) - (a * tmean u + b)))
        = u.map (List.map (fun x => a * (x - tmean u))) from
    tensor_map_congr _ _ u (fun x _ => by ring)]
  unfold tmaxabs
  rw [tflat_map, tflat_map]
  rw [show (tflat u).map (fun x => a * (x - tmean u))
        = ((tflat u).map (fun x => x - tmean u)).map (fun y => a * y) from by
    rw [List.map_map]; rfl]
  exact foldr_qmax_scale a ha ((tflat u).map (fun x => x - tmean u))

lemma normalize_affine (a b : ℚ) (ha : 0 < a) (u : List (List ℚ)) :
    normalize_tensor (u.map (List.map (fun x => a * x + b))) = normalize_tensor u := by
  by_cases hne : tflat u = []
  · have hinner : ∀ l ∈ u, l = [] := by
      rw [tflat] at hne
      exact List.flatten_eq_nil_iff.mp hne
    have hid : u.map (List.map (fun x => a * x + b)) = u := by
      rw [show u.map (List.map (fun x => a * x + b)) = u.map id from
        List.map_congr_left (fun l hl => by rw [hinner l hl]; rfl)]
      exact List.map_id u
    rw [hid]
  · rw [normalize_tensor_entrywise (u.map (List.map (fun x => a * x + b))),
      normalize_tensor_entrywise u]
    rw [tmean_affine a b u hne]
    rw [tmaxabs_centered_affine a b (le_of_lt ha) u]
    rw [tensor_map_map]
    apply tensor_map_congr
    intro x _
    show ((a * x + b) - (a * tmean u + b))
        / (a * tmaxabs (u.map (List.map (fun y => y - tmean u))))
      = (x - tmean u) / tmaxabs (u.map (List.map (fun y => y - tmean u)))
    by_cases hM : tmaxabs (u.map (List.map (fun y => y - tmean u))) = 0
    · rw [hM, mul_zero, div_zero, div_zero]
    · rw [show (a * x + b) - (a * tmean u + b) = a * (x - tmean u) from by ring]
      exact mul_div_mul_left _ _ (ne_of_gt ha)

lemma normalize_const (c : ℚ) (u : List (List ℚ)) (hc : ∀ x ∈ tflat u, x = c) :
    normalize_tensor u = u.map (List.map (fun _ => 0)) := by
  rw [normalize_tensor_entrywise]
  apply tensor_map_congr
  intro x hx
  by_cases hne : tflat u = []
  · rw [hne] at hx
    simp at hx
  · have hmean : tmean u = c := by
      unfold tmean
      rw [show tflat u = List.replicate (tflat u).length c from
        List.eq_replicate_of_mem (fun b hb => hc b hb)]
      rw [List.sum_replicate, List.length_replicate, nsmul_eq_mul]
      exact mul_div_cancel_left₀ c (length_tflat_ne_zero hne)
    rw [hc x hx, hmean, sub_self, zero_div]

lemma maskSelect_mem_subset {α : Type} :
    ∀ (mask : List Bool) (t : List α) (x : α), x ∈ maskSelect mask t → x ∈ t
  | [], [], _, hx => by simp [maskSelect] at hx
  | [], _ :: _, _, hx => by simp [maskSelect] at hx
  | b :: _, [], _, hx => by cases b <;> simp [maskSelect] at hx
  | true :: mask, y :: t, x, hx => by
      rcases List.mem_cons.mp hx with h | h
      · exact h ▸ List.mem_cons_self y t
      · exact List.mem_cons_of_mem y (maskSelect_mem_subset mask t x h)
  | false :: mask, y :: t, x, hx =>
      List.mem_cons_of_mem y (maskSelect_mem_subset mask t x hx)

lemma tflat_maskSelect_subset (mask : List Bool) (t : List (List ℚ)) (x : ℚ)
    (hx : x ∈ tflat (maskSelect mask t)) : x ∈ tflat t := by
  rw [tflat, List.mem_flatten] at hx ⊢
  obtain ⟨l, hl, hxl⟩ := hx
  exact ⟨l, maskSelect_mem_subset mask t l hl, hxl⟩

/-- Per-split normalization of an already globally normalized tensor gives the
same result as normalizing the raw selection directly: global normalization
is an affine rescaling, which per-split normalization cancels. -/
lemma normalize_select_normalize (mask : List Bool) (t : List (List ℚ)) :
    normalize_tensor (maskSelect mask (normalize_tensor t))
      = normalize_tensor (maskSelect mask t) := by
  by_cases hM : tmaxabs (t.map (List.map (fun y => y - tmean t))) = 0
  · have hconst : ∀ x ∈ tflat t, x = tmean t := by
      intro x hx
      have hmem : qabs (x - tmean t)
          ∈ (tflat (t.map (List.map (fun y => y - tmean t)))).map qabs := by
        rw [tflat_map]
        exact List.mem_map_of_mem qabs (List.mem_map_of_mem _ hx)
      have hle : qabs (x - tmean t)
          ≤ tmaxabs (t.map (List.map (fun y => y - tmean t))) :=
        le_foldr_qmax _ _ hmem
      have hge : 0 ≤ qabs (x - tmean t) := by
        rw [qabs_eq_abs]
        exact abs_nonneg _
      have h0 : qabs (x - tmean t) = 0 := le_antisymm (hM ▸ hle) hge
      rw [qabs_eq_abs] at h0
      have := abs_eq_zero.mp h0
      linarith [sub_eq_zero.mp this]
    have hz : normalize_tensor t = t.map (List.map (fun _ => 0)) :=
      normalize_const (tmean t) t hconst
    have hzz : normalize_tensor ((maskSelect mask t).map (List.map (fun _ => (0 : ℚ))))
        = ((maskSelect mask t).map (List.map (fun _ => (0 : ℚ)))).map
            (List.map (fun _ => 0)) := by
      apply normalize_const 0
      intro x hx
      rw [tflat_map] at hx
      obtain ⟨y, _, hy⟩ := List.mem_map.mp hx
      exact hy.symm
    have hrhs : normalize_tensor (maskSelect mask t)
        = (maskSelect mask t).map (List.map (fun _ => 0)) := by
      apply normalize_const (tmean t)
      intro x hx
      exact hconst x (tflat_maskSelect_subset mask t x hx)
    rw [hz, maskSelect_map, hzz, hrhs, tensor_map_map]
  · have hMnonneg : 0 ≤ tmaxabs (t.map (List.map (fun y => y - tmean t))) :=
      foldr_qmax_nonneg (tflat (t.map (List.map (fun y => y - tmean t))))
    have hMpos : 0 < tmaxabs (t.map (List.map (fun y => y - tmean t))) :=
      lt_of_le_of_ne hMnonneg (Ne.symm hM)
    have hrew : normalize_tensor t = t.map (List.map (fun x =>
        (1 / tmaxabs (t.map (List.map (fun y => y - tmean t)))) * x
          + (-(tmean t) / tmaxabs (t.map (List.map (fun y => y - tmean t)))))) := by
      rw [normalize_tensor_entrywise]
      apply tensor_map_congr
      intro x _
      rw [sub_div]
      ring
    rw [hrew, maskSelect_map]
    exact normalize_affine _ _ (by positivity) (maskSelect mask t)

/-- C2: the normalized test tensor depends only on the raw values of the
test-set instances: two runs whose raw inputs agree on the test-set instances
(and may differ arbitrarily on the train-set instances, the labels and the
train shuffle) produce identical normalized test data — normalization
statistics do not leak from the train split into the test split. -/
theorem test_normalization_no_leak (fold : ℕ) (IDs : List (List ℚ))
    (subjects labels labels2 : List ℚ) (perm perm2 : List ℕ)
    (raw raw2 : List (List (Option ℚ)))
    (hagree : maskSelect (in1d subjects (tableColumn IDs fold)) raw
            = maskSelect (in1d subjects (tableColumn IDs fold)) raw2) :
    foldTestData fold IDs subjects labels raw perm
      = foldTestData fold IDs subjects labels2 raw2 perm2 := by
  show normalize_tensor (maskSelect (in1d subjects (tableColumn IDs fold))
        (normalize_tensor (nanToZero raw)))
    = normalize_tensor (maskSelect (in1d subjects (tableColumn IDs fold))
        (normalize_tensor (nanToZero raw2)))
  rw [normalize_select_normalize, normalize_select_normalize]
  unfold nanToZero
  rw [maskSelect_map, maskSelect_map, hagree]

/-- Witness for C2: two concrete runs agreeing on the test instance but
differing on the train instance (one even has a NaN there) give the same
normalized test tensor. -/
theorem test_normalization_no_leak_witness :
    maskSelect (in1d [1, 2] (tableColumn [[1]] 0)) [[some 1, some 3], [some 5, some 7]]
      = maskSelect (in1d [1, 2] (tableColumn [[1]] 0)) [[some 1, some 3], [none, some 9]] ∧
    foldTestData 0 [[1]] [1, 2] [10, 20] [[some 1, some 3], [some 5, some 7]] [0]
      = foldTestData 0 [[1]] [1, 2] [30, 40] [[some 1, some 3], [none, some 9]] [1] := by
  refine ⟨by decide, ?_⟩
  exact test_normalization_no_leak 0 [[1]] [1, 2] [10, 20] [30, 40] [0] [1]
    [[some 1, some 3], [some 5, some 7]] [[some 1, some 3], [none, some 9]] (by decide)

/-- C3 counterexample: the persisted bundle contains eight tensors, not
"exactly the four trainable tensors of layers 3 and 4" — in particular it
contains the layer-1 weights. -/
theorem transfer_saved_bundle_counterexample :
    ((savedBundle (buildTransferGraph
        (⟨0, 0, 0, 0, 0, 0, 0, 0⟩ : LoadedWeights ℚ) 0 0 0 0)
        (fun _ => 0)).map Prod.fst).length = 8 ∧
    "layer1_weights" ∈ (savedBundle (buildTransferGraph
        (⟨0, 0, 0, 0, 0, 0, 0, 0⟩ : LoadedWeights ℚ) 0 0 0 0)
        (fun _ => 0)).map Prod.fst ∧
    ¬ ((savedBundle (buildTransferGraph
        (⟨0, 0, 0, 0, 0, 0, 0, 0⟩ : LoadedWeights ℚ) 0 0 0 0)
        (fun _ => 0)).map Prod.fst
      = trainableNames (buildTransferGraph
        (⟨0, 0, 0, 0, 0, 0, 0, 0⟩ : LoadedWeights ℚ) 0 0 0 0)) := by
  refine ⟨rfl, by decide, by decide⟩

/-- C3 amended: the layer-1/2 parameters are immutable constants whose values
after any training run equal the loaded pretrained values and which are
excluded from the trainable parameter set (which is exactly the four
layer-3/4 tensors); the persisted bundle however contains all eight tensors:
the four frozen pretrained ones and the four trained ones. -/
theorem transfer_frozen_layers {α : Type} (loaded : LoadedWeights α)
    (i3w i3b i4w i4b : α) (s0 : String → α)
    (upds : List ((String → α) → (String → α))) :
    evalNode (applyUpdates s0 upds)
        (buildTransferGraph loaded i3w i3b i4w i4b).layer1_weights
      = loaded.layer1_weights ∧
    evalNode (applyUpdates s0 upds)
        (buildTransferGraph loaded i3w i3b i4w i4b).layer1_biases
      = loaded.layer1_biases ∧
    evalNode (applyUpdates s0 upds)
        (buildTransferGraph loaded i3w i3b i4w i4b).layer2_weights
      = loaded.layer2_weights ∧
    evalNode (applyUpdates s0 upds)
        (buildTransferGraph loaded i3w i3b i4w i4b).layer2_biases
      = loaded.layer2_biases ∧
    isTrainable (buildTransferGraph loaded i3w i3b i4w i4b).layer1_weights = false ∧
    isTrainable (buildTransferGraph loaded i3w i3b i4w i4b).layer2_weights = false ∧
    trainableNames (buildTransferGraph loaded i3w i3b i4w i4b)
      = ["layer3_weights", "layer3_biases", "layer4_weights", "layer4_biases"] ∧
    savedBundle (buildTransferGraph loaded i3w i3b i4w i4b) (applyUpdates s0 upds)
      = [("layer1_weights", loaded.layer1_weights),
         ("layer1_biases", loaded.layer1_biases),
         ("layer2_weights", loaded.layer2_weights),
         ("layer2_biases", loaded.layer2_biases),
         ("layer3_weights", applyUpdates s0 upds "layer3_weights"),
         ("layer3_biases", applyUpdates s0 upds "layer3_biases"),
         ("layer4_weights", applyUpdates s0 upds "layer4_weights"),
         ("layer4_biases", applyUpdates s0 upds "layer4_biases")] :=
  ⟨rfl, rfl, rfl, rfl, rfl, rfl, rfl, rfl⟩

end CCNN
